import Mathlib

/-!
Shallow embedding of the HeyChatting core: the `ChatManager` room registry
(src/core/ChatManager.ts), its event stream, and the stream transforms of
src/streams/MessageStreams.ts.

Modelling conventions:
- A JavaScript `Map` (insertion-ordered, unique keys) is an association list
  `List (String × α)`; `Map.get` is `mapGet`, `Map.set` is `mapSet`
  (update-in-place for an existing key, append otherwise), `Map.delete`
  is `mapDelete`, `Map.size` is the list length.
- `uuidv4()` is a fresh-id counter threaded through the manager state;
  `new Date()` is an explicit time argument `t : Nat` (milliseconds).
- The rxjs `Subject` event stream is an append-only event log
  (`events : List ChatEvent`); a subscriber created at some point observes
  the events appended after that point.
- A thrown `Error` is `Except.error` of the message string.
-/

namespace HeyChatting

/-- MessageType enum of src/types/index.ts. -/
inductive MessageType where
  | text
  | system
  | user_joined
  | user_left
  deriving DecidableEq, Repr

/-- User record of src/types/index.ts. -/
structure User where
  id : String
  username : String
  joinedAt : Nat
  deriving DecidableEq, Repr

/-- Message record of src/types/index.ts (`id` is the uuid, modelled as a counter value). -/
structure Message where
  id : Nat
  userId : String
  username : String
  content : String
  timestamp : Nat
  type : MessageType
  deriving DecidableEq, Repr

/-- Room record of src/types/index.ts; `users` is a JS Map, modelled as an assoc list. -/
structure Room where
  id : String
  name : String
  users : List (String × User)
  messages : List Message
  createdAt : Nat
  deriving DecidableEq, Repr

/-- ChatEventType enum of src/types/index.ts. -/
inductive ChatEventType where
  | user_connected
  | user_disconnected
  | message_sent
  | room_joined
  | room_left
  deriving DecidableEq, Repr

/-- The `payload: any` of a ChatEvent; the code only ever emits
`{roomId, message}` or `{roomId, user}` shapes. -/
inductive EventPayload where
  | message (roomId : String) (message : Message)
  | user (roomId : String) (user : User)
  deriving DecidableEq, Repr

/-- The `payload.roomId` field access. -/
def EventPayload.roomId : EventPayload → String
  | .message r _ => r
  | .user r _ => r

/-- The `payload.message` field access (absent on user payloads). -/
def EventPayload.messageOf : EventPayload → Option Message
  | .message _ m => some m
  | .user _ _ => none

/-- ChatEvent record of src/types/index.ts. -/
structure ChatEvent where
  type : ChatEventType
  payload : EventPayload
  timestamp : Nat
  deriving DecidableEq, Repr

/-- JS `Map.get`: value of the first (unique) entry with the given key. -/
def mapGet (m : List (String × α)) (k : String) : Option α :=
  match m with
  | [] => none
  | p :: rest => if p.1 = k then some p.2 else mapGet rest k

/-- JS `Map.set`: update in place (keeping position) if the key exists,
else append at the end; the keys of a JS Map are unique. -/
def mapSet (m : List (String × α)) (k : String) (v : α) : List (String × α) :=
  match m with
  | [] => [(k, v)]
  | p :: rest => if p.1 = k then (k, v) :: rest else p :: mapSet rest k v

/-- JS `Map.delete`: remove the entry with the given key. -/
def mapDelete (m : List (String × α)) (k : String) : List (String × α) :=
  m.filter (fun p => p.1 ≠ k)

/-- The ChatManager state: `rooms` and `roomSubjects` maps, the event
`Subject` as an event log, and the uuid counter. -/
structure ChatManager where
  rooms : List (String × Room)
  roomSubjects : List String
  events : List ChatEvent
  nextId : Nat
  deriving DecidableEq, Repr

namespace ChatManager

/-- Private `emitEvent`: `this.eventStream.next(event)`. -/
def emitEvent (cm : ChatManager) (e : ChatEvent) : ChatManager :=
  { cm with events := cm.events ++ [e] }

/-- Private `updateRoom`: re-set the room entry and notify its subject. -/
def updateRoom (cm : ChatManager) (room : Room) : ChatManager :=
  { cm with rooms := mapSet cm.rooms room.id room }

/-- `createRoom(id, name)`: registers a fresh empty room (overwriting any
existing entry of the same id) and its BehaviorSubject, returns the room. -/
def createRoom (cm : ChatManager) (id name : String) (t : Nat) :
    ChatManager × Room :=
  let room : Room := ⟨id, name, [], [], t⟩
  ({ cm with
      rooms := mapSet cm.rooms id room,
      roomSubjects := if cm.roomSubjects.contains id then cm.roomSubjects
                      else cm.roomSubjects ++ [id] },
   room)

/-- The constructor: creates the default "general" room. -/
def init : ChatManager :=
  (createRoom ⟨[], [], [], 0⟩ "general" "General Chat" 0).1

/-- `getRoom(roomId)`. -/
def getRoom (cm : ChatManager) (roomId : String) : Option Room :=
  mapGet cm.rooms roomId

/-- `getAllRooms()`: `Array.from(this.rooms.values())`. -/
def getAllRooms (cm : ChatManager) : List Room :=
  cm.rooms.map Prod.snd

/-- `addUserToRoom(roomId, user)`: false if the room is absent; otherwise
sets the member, appends the join system message, updates the room and
emits a ROOM_JOINED event. -/
def addUserToRoom (cm : ChatManager) (roomId : String) (user : User) (t : Nat) :
    ChatManager × Bool :=
  match mapGet cm.rooms roomId with
  | none => (cm, false)
  | some room =>
    let room1 := { room with users := mapSet room.users user.id user }
    let joinMessage : Message :=
      ⟨cm.nextId, "system", "System", user.username ++ " joined the room", t,
        .user_joined⟩
    let room2 := { room1 with messages := room1.messages ++ [joinMessage] }
    let cm1 := { cm with nextId := cm.nextId + 1 }
    let cm2 := cm1.updateRoom room2
    let cm3 := cm2.emitEvent ⟨.room_joined, .user roomId user, t⟩
    (cm3, true)

/-- `removeUserFromRoom(roomId, userId)`: false if the room or the member is
absent; otherwise deletes the member, appends the leave system message and
emits a ROOM_LEFT event. -/
def removeUserFromRoom (cm : ChatManager) (roomId userId : String) (t : Nat) :
    ChatManager × Bool :=
  match mapGet cm.rooms roomId with
  | none => (cm, false)
  | some room =>
    match mapGet room.users userId with
    | none => (cm, false)
    | some user =>
      let room1 := { room with users := mapDelete room.users userId }
      let leaveMessage : Message :=
        ⟨cm.nextId, "system", "System", user.username ++ " left the room", t,
          .user_left⟩
      let room2 := { room1 with messages := room1.messages ++ [leaveMessage] }
      let cm1 := { cm with nextId := cm.nextId + 1 }
      let cm2 := cm1.updateRoom room2
      let cm3 := cm2.emitEvent ⟨.room_left, .user roomId user, t⟩
      (cm3, true)

/-- `addMessage(roomId, userId, content)`: null if the room is absent or the
user is not a member; otherwise appends a TEXT message with the raw content
and emits a MESSAGE_SENT event. -/
def addMessage (cm : ChatManager) (roomId userId content : String) (t : Nat) :
    ChatManager × Option Message :=
  match mapGet cm.rooms roomId with
  | none => (cm, none)
  | some room =>
    match mapGet room.users userId with
    | none => (cm, none)
    | some user =>
      let message : Message := ⟨cm.nextId, userId, user.username, content, t, .text⟩
      let room2 := { room with messages := room.messages ++ [message] }
      let cm1 := { cm with nextId := cm.nextId + 1 }
      let cm2 := cm1.updateRoom room2
      let cm3 := cm2.emitEvent ⟨.message_sent, .message roomId message, t⟩
      (cm3, some message)

/-- `getRoomMessages(roomId, limit?)`: `limit ? messages.slice(-limit) :
messages`; a limit of 0 is falsy in JS, so it returns the full history. -/
def getRoomMessages (cm : ChatManager) (roomId : String) (limit : Option Nat) :
    List Message :=
  match mapGet cm.rooms roomId with
  | none => []
  | some room =>
    match limit with
    | none => room.messages
    | some k =>
      if k = 0 then room.messages
      else room.messages.drop (room.messages.length - k)

/-- `getRoomUsers(roomId)`: `Array.from(room.users.values())`, empty if absent. -/
def getRoomUsers (cm : ChatManager) (roomId : String) : List User :=
  match mapGet cm.rooms roomId with
  | none => []
  | some room => room.users.map Prod.snd

/-- `getRoomStream(roomId)`: throws `Error` when the room has no subject. -/
def getRoomStream (cm : ChatManager) (roomId : String) : Except String Unit :=
  if cm.roomSubjects.contains roomId then .ok ()
  else .error ("Room " ++ roomId ++ " not found")

/-- `getMessageStream(roomId)` as a view of an event log: filter to
MESSAGE_SENT events of the room, project `payload.message`. -/
def messageStream (events : List ChatEvent) (roomId : String) : List Message :=
  (events.filter (fun e =>
      decide (e.type = ChatEventType.message_sent ∧ e.payload.roomId = roomId))).filterMap
    (fun e => e.payload.messageOf)

end ChatManager

/-- Global single-character regex replace `s.replace(/pat/g, rep)`, on the
character list of the string. -/
def replaceAll (pat : Char) (rep : List Char) (s : List Char) : List Char :=
  s.flatMap (fun c => if c = pat then rep else [c])

/-- JS `String.prototype.trim`: drop leading and trailing whitespace
(modelled over ASCII whitespace via `Char.isWhitespace`). -/
def trimList (s : List Char) : List Char :=
  ((s.dropWhile Char.isWhitespace).reverse.dropWhile Char.isWhitespace).reverse

/-- `MessageTransform.processMessage` of src/streams/MessageStreams.ts:
`content.replace(/</g, "&lt;").replace(/>/g, "&gt;").trim()`, all other
fields copied. -/
def processMessage (m : Message) : Message :=
  { m with
      content :=
        String.mk
          (trimList
            (replaceAll '>' "&gt;".toList
              (replaceAll '<' "&lt;".toList m.content.toList))) }

/-- The record emitted by `UserActivityTransform._transform`. -/
structure ActivityData where
  user : User
  action : String
  lastActivity : Nat
  activeUsers : Nat
  deriving DecidableEq, Repr

/-- `UserActivityTransform._transform` on state `userActivity : Map string →
Date`: sets the user's timestamp to now and emits the event decorated with
`lastActivity` (the timestamp just set, read back via `get`) and
`activeUsers` (the map's size). -/
def uaTransform (state : List (String × Nat)) (user : User) (action : String)
    (t : Nat) : List (String × Nat) × ActivityData :=
  let state1 := mapSet state user.id t
  (state1, ⟨user, action, t, state1.length⟩)

/-- `UserActivityTransform.getActiveUsers`: delete every entry whose
timestamp is strictly before `now - 5 minutes`, return the remaining size
(the pruned state is first, the returned count second). -/
def getActiveUsers (state : List (String × Nat)) (now : Nat) :
    List (String × Nat) × Nat :=
  let fiveMinutesAgo := now - 5 * 60 * 1000
  let state1 := state.filter (fun p => !(decide (p.2 < fiveMinutesAgo)))
  (state1, state1.length)

/-- The key/record coherence a real JS `Map<string, Room>` state of the
manager always has: the room stored under a key carries that key as its id. -/
def RoomsWF (cm : ChatManager) : Prop :=
  ∀ k room, mapGet cm.rooms k = some room → room.id = k

/-- A post command fed to the manager: roomId, userId, content, time. -/
structure PostCmd where
  roomId : String
  userId : String
  content : String
  time : Nat
  deriving DecidableEq, Repr

/-- Run a sequence of `addMessage` calls against the manager. -/
def runPosts (cm : ChatManager) : List PostCmd → ChatManager
  | [] => cm
  | c :: rest => runPosts (cm.addMessage c.roomId c.userId c.content c.time).1 rest

/-- The sanitizer as §4.4 words it: each character escaped (`<` to `&lt;`,
`>` to `&gt;`), then leading/trailing whitespace removed. -/
def specEscChar (c : Char) : List Char :=
  if c = '<' then "&lt;".toList else if c = '>' then "&gt;".toList else [c]

/-- Spec-side sanitizer, to be compared with `processMessage`. -/
def specSanitize (s : String) : String :=
  String.mk (trimList (s.toList.flatMap specEscChar))

section MapLemmas

variable {α : Type}

theorem mapGet_mapSet_self (m : List (String × α)) (k : String) (v : α) :
    mapGet (mapSet m k v) k = some v := by
  induction m with
  | nil => simp [mapGet, mapSet]
  | cons p rest ih =>
    by_cases h : p.1 = k
    · simp [mapGet, mapSet, h]
    · simp [mapGet, mapSet, h, ih]

theorem mapGet_mapSet_ne (m : List (String × α)) (k k' : String) (v : α)
    (h : k' ≠ k) : mapGet (mapSet m k v) k' = mapGet m k' := by
  have h2 : ¬(k = k') := fun hh => h hh.symm
  induction m with
  | nil => simp [mapGet, mapSet, h2]
  | cons p rest ih =>
    by_cases hp : p.1 = k
    · subst hp
      simp [mapGet, mapSet, h2]
    · simp [mapGet, mapSet, hp, ih]

theorem length_mapSet_of_mem (m : List (String × α)) (k : String) (v w : α)
    (h : mapGet m k = some w) : (mapSet m k v).length = m.length := by
  induction m with
  | nil => simp [mapGet] at h
  | cons p rest ih =>
    by_cases hp : p.1 = k
    · simp [mapSet, hp]
    · simp [mapGet, hp] at h
      simp [mapSet, hp, ih h]

theorem mapGet_isSome_mapSet (m : List (String × α)) (k k' : String) (v : α)
    (h : (mapGet m k').isSome) : (mapGet (mapSet m k v) k').isSome := by
  by_cases hk : k' = k
  · subst hk; simp [mapGet_mapSet_self]
  · rwa [mapGet_mapSet_ne m k k' v hk]

theorem mem_map_snd_of_mapGet (m : List (String × α)) (k : String) (v : α)
    (h : mapGet m k = some v) : v ∈ m.map Prod.snd := by
  induction m with
  | nil => simp [mapGet] at h
  | cons p rest ih =>
    by_cases hp : p.1 = k
    · simp [mapGet, hp] at h
      simp [h]
    · simp [mapGet, hp] at h
      simp [ih h]

theorem mapGet_exists_pair (m : List (String × α)) (k : String) (v : α)
    (h : mapGet m k = some v) : (k, v) ∈ m := by
  induction m with
  | nil => simp [mapGet] at h
  | cons p rest ih =>
    by_cases hp : p.1 = k
    · simp [mapGet, hp] at h
      have hpv : p = (k, v) := by
        cases p
        simp_all
      rw [← hpv]
      exact List.mem_cons_self _ _
    · simp [mapGet, hp] at h
      exact List.mem_cons_of_mem _ (ih h)

theorem mem_keys_mapSet (m : List (String × α)) (k x : String) (v : α)
    (h : x ∈ (mapSet m k v).map Prod.fst) : x ∈ m.map Prod.fst ∨ x = k := by
  induction m with
  | nil =>
    simp [mapSet] at h
    simp [h]
  | cons p rest ih =>
    by_cases hp : p.1 = k
    · simp only [mapSet, if_pos hp, List.map_cons, List.mem_cons] at h
      rcases h with h | h
      · exact Or.inr (by simp [h])
      · exact Or.inl (by simp only [List.map_cons, List.mem_cons]; exact Or.inr h)
    · simp only [mapSet, if_neg hp, List.map_cons, List.mem_cons] at h
      rcases h with h | h
      · exact Or.inl (by simp only [List.map_cons, List.mem_cons]; exact Or.inl h)
      · rcases ih h with h1 | h1
        · exact Or.inl (by simp only [List.map_cons, List.mem_cons]; exact Or.inr h1)
        · exact Or.inr h1

theorem keys_nodup_mapSet (m : List (String × α)) (k : String) (v : α)
    (h : (m.map Prod.fst).Nodup) : ((mapSet m k v).map Prod.fst).Nodup := by
  induction m with
  | nil => simp [mapSet]
  | cons p rest ih =>
    simp only [List.map_cons, List.nodup_cons] at h
    by_cases hp : p.1 = k
    · subst hp
      simpa [mapSet, List.nodup_cons] using h
    · have h2 := ih h.2
      simp only [mapSet, if_neg hp, List.map_cons, List.nodup_cons]
      refine ⟨?_, h2⟩
      intro hmem
      rcases mem_keys_mapSet rest k p.1 v hmem with h1 | h1
      · exact h.1 h1
      · exact hp h1

end MapLemmas

/-- Lifts a decidable per-entry check to the `RoomsWF` invariant. -/
theorem roomsWF_of_pairs (cm : ChatManager)
    (h : ∀ p ∈ cm.rooms, p.2.id = p.1) : RoomsWF cm := by
  intro k room hk
  exact h (k, room) (mapGet_exists_pair cm.rooms k room hk)

/-- Sample user for concrete witnesses. -/
def sampleAlice : User := ⟨"u1", "alice", 0⟩

/-- Sample user for concrete witnesses. -/
def sampleBob : User := ⟨"u2", "bob", 0⟩

/-- Manager state right after alice joined the default room. -/
def cmJoined : ChatManager :=
  (ChatManager.init.addUserToRoom "general" sampleAlice 1).1

/-- C1 (amended): `createRoom` on an existing id does not fail with a
DuplicateRoomError; it returns a fresh empty room, registers it under the
id — replacing the existing room's members and history — and leaves every
other room unchanged. -/
theorem createRoom_overwrites_existing (cm : ChatManager) (id name : String)
    (t : Nat) :
    (cm.createRoom id name t).2 = ⟨id, name, [], [], t⟩ ∧
    mapGet (cm.createRoom id name t).1.rooms id = some ⟨id, name, [], [], t⟩ ∧
    ∀ r : String, r ≠ id →
      mapGet (cm.createRoom id name t).1.rooms r = mapGet cm.rooms r := by
  refine ⟨rfl, ?_, ?_⟩
  · simp [ChatManager.createRoom, mapGet_mapSet_self]
  · intro r hr
    simp [ChatManager.createRoom, mapGet_mapSet_ne _ _ _ _ hr]

/-- C1 counterexample: after alice joins "general" (history length 1),
re-creating "general" succeeds and replaces the room with an empty one
(history length 0), so `createRoom` does not fail on a duplicate id and
does discard the existing history. -/
theorem createRoom_duplicate_counterexample :
    (cmJoined.getRoomMessages "general" none).length = 1 ∧
    ((cmJoined.createRoom "general" "General Chat" 2).1.getRoomMessages
        "general" none).length = 0 := by
  decide

/-- C1 witness: the amended theorem applied at a concrete state and a
concrete distinct room id. -/
theorem createRoom_overwrites_existing_witness :
    mapGet (ChatManager.init.createRoom "general" "G2" 7).1.rooms "other" =
      mapGet ChatManager.init.rooms "other" :=
  (createRoom_overwrites_existing ChatManager.init "general" "G2" 7).2.2 "other"
    (by decide)

/-- C2 (confirmed): `addMessage` returns null with the state unchanged (so
the history length is unchanged, and no exception is raised) when the room
is absent or the user is not a member; on success it returns a TEXT message
whose content is exactly the raw content argument, appends exactly that
message to the room's history, and emits a MESSAGE_SENT event carrying the
room id and the message. -/
theorem addMessage_spec :
    (∀ (cm : ChatManager) (roomId userId content : String) (t : Nat),
        mapGet cm.rooms roomId = none →
        cm.addMessage roomId userId content t = (cm, none)) ∧
    (∀ (cm : ChatManager) (roomId userId content : String) (t : Nat)
        (room : Room),
        mapGet cm.rooms roomId = some room →
        mapGet room.users userId = none →
        cm.addMessage roomId userId content t = (cm, none)) ∧
    (∀ (cm : ChatManager) (roomId userId content : String) (t : Nat)
        (room : Room) (user : User),
        mapGet cm.rooms roomId = some room →
        mapGet room.users userId = some user →
        room.id = roomId →
        (cm.addMessage roomId userId content t).2 =
          some ⟨cm.nextId, userId, user.username, content, t, .text⟩ ∧
        (cm.addMessage roomId userId content t).1.getRoomMessages roomId none =
          room.messages ++
            [⟨cm.nextId, userId, user.username, content, t, .text⟩] ∧
        (cm.addMessage roomId userId content t).1.events =
          cm.events ++
            [⟨.message_sent,
              .message roomId ⟨cm.nextId, userId, user.username, content, t, .text⟩,
              t⟩]) := by
  refine ⟨?_, ?_, ?_⟩
  · intro cm roomId userId content t h
    simp [ChatManager.addMessage, h]
  · intro cm roomId userId content t room h hu
    simp [ChatManager.addMessage, h, hu]
  · intro cm roomId userId content t room user h hu hid
    refine ⟨?_, ?_, ?_⟩ <;>
      simp [ChatManager.addMessage, h, hu, hid, ChatManager.updateRoom,
        ChatManager.emitEvent, ChatManager.getRoomMessages, mapGet_mapSet_self]

/-- C2 witness: the success case at a concrete state (alice, a member of
"general", posts "hi"). -/
theorem addMessage_spec_witness :
    (cmJoined.addMessage "general" "u1" "hi" 2).2 =
      some ⟨1, "u1", "alice", "hi", 2, .text⟩ :=
  (addMessage_spec.2.2 cmJoined "general" "u1" "hi" 2
      ⟨"general", "General Chat", [("u1", sampleAlice)],
        [⟨0, "system", "System", "alice joined the room", 1, .user_joined⟩], 0⟩
      sampleAlice (by decide) (by decide) rfl).1

/-- C3 (confirmed): joinRoom (`addUserToRoom`) returns false when the room
is absent; on an existing room it returns true, after which the member list
contains the user, the history equals the old history plus exactly one
system join message reading "{username} joined the room" — in particular
the history ends with that message — and a ROOM_JOINED (user-joined) event
carrying the room id and user is emitted. -/
theorem addUserToRoom_spec :
    (∀ (cm : ChatManager) (roomId : String) (user : User) (t : Nat),
        mapGet cm.rooms roomId = none →
        cm.addUserToRoom roomId user t = (cm, false)) ∧
    (∀ (cm : ChatManager) (roomId : String) (user : User) (t : Nat)
        (room : Room),
        mapGet cm.rooms roomId = some room →
        room.id = roomId →
        (cm.addUserToRoom roomId user t).2 = true ∧
        user ∈ (cm.addUserToRoom roomId user t).1.getRoomUsers roomId ∧
        (cm.addUserToRoom roomId user t).1.getRoomMessages roomId none =
          room.messages ++
            [⟨cm.nextId, "system", "System",
              user.username ++ " joined the room", t, .user_joined⟩] ∧
        ((cm.addUserToRoom roomId user t).1.getRoomMessages roomId none).getLast? =
          some ⟨cm.nextId, "system", "System",
            user.username ++ " joined the room", t, .user_joined⟩ ∧
        (cm.addUserToRoom roomId user t).1.events =
          cm.events ++ [⟨.room_joined, .user roomId user, t⟩]) := by
  refine ⟨?_, ?_⟩
  · intro cm roomId user t h
    simp [ChatManager.addUserToRoom, h]
  · intro cm roomId user t room h hid
    have hmsgs :
        (cm.addUserToRoom roomId user t).1.getRoomMessages roomId none =
          room.messages ++
            [⟨cm.nextId, "system", "System",
              user.username ++ " joined the room", t, .user_joined⟩] := by
      simp [ChatManager.addUserToRoom, h, hid, ChatManager.updateRoom,
        ChatManager.emitEvent, ChatManager.getRoomMessages, mapGet_mapSet_self]
    refine ⟨?_, ?_, hmsgs, ?_, ?_⟩
    · simp [ChatManager.addUserToRoom, h]
    · have : mapGet (mapSet room.users user.id user) user.id = some user :=
        mapGet_mapSet_self room.users user.id user
      have hmem := mem_map_snd_of_mapGet _ _ _ this
      simp [ChatManager.addUserToRoom, h, hid, ChatManager.updateRoom,
        ChatManager.emitEvent, ChatManager.getRoomUsers, mapGet_mapSet_self]
      simpa using hmem
    · rw [hmsgs]
      simp
    · simp [ChatManager.addUserToRoom, h, hid, ChatManager.updateRoom,
        ChatManager.emitEvent]

/-- C3 witness: joining alice to the default room of the freshly
constructed manager. -/
theorem addUserToRoom_spec_witness :
    (ChatManager.init.addUserToRoom "general" sampleAlice 1).2 = true :=
  (addUserToRoom_spec.2 ChatManager.init "general" sampleAlice 1
      ⟨"general", "General Chat", [], [], 0⟩ (by decide) rfl).1

/-- C4 (amended): for an absent room `getRoomMessages` returns the empty
sequence for any limit; for an existing room it returns the full history
with no limit, the full history for a provided limit of 0 (0 is falsy in
JS, so the tail slice is skipped), and for a provided positive limit k the
last min(k, L) messages: a suffix of the history, preserving order. -/
theorem getRoomMessages_spec :
    (∀ (cm : ChatManager) (roomId : String) (limit : Option Nat),
        mapGet cm.rooms roomId = none →
        cm.getRoomMessages roomId limit = []) ∧
    (∀ (cm : ChatManager) (roomId : String) (room : Room),
        mapGet cm.rooms roomId = some room →
        cm.getRoomMessages roomId none = room.messages ∧
        cm.getRoomMessages roomId (some 0) = room.messages ∧
        ∀ k : Nat, 0 < k →
          (cm.getRoomMessages roomId (some k)).length =
            min k room.messages.length ∧
          cm.getRoomMessages roomId (some k) <:+ room.messages) := by
  refine ⟨?_, ?_⟩
  · intro cm roomId limit h
    cases limit <;> simp [ChatManager.getRoomMessages, h]
  · intro cm roomId room h
    refine ⟨by simp [ChatManager.getRoomMessages, h],
      by simp [ChatManager.getRoomMessages, h], ?_⟩
    intro k hk
    have hk0 : ¬(k = 0) := Nat.pos_iff_ne_zero.mp hk
    constructor
    · simp [ChatManager.getRoomMessages, h, hk0]
      omega
    · simp [ChatManager.getRoomMessages, h, hk0]
      exact List.drop_suffix _ _

/-- C4 counterexample: with a history of length 1, a provided limit of 0
returns the full history (length 1), not the last min(0, 1) = 0 messages. -/
theorem getRoomMessages_limit_zero_counterexample :
    (cmJoined.getRoomMessages "general" (some 0)).length = 1 ∧
    min 0 (cmJoined.getRoomMessages "general" none).length = 0 := by
  decide

/-- C4 witness: the amended theorem applied to a concrete room whose
history has one message, with the positive limit 3. -/
theorem getRoomMessages_spec_witness :
    (cmJoined.getRoomMessages "general" (some 3)).length =
      min 3 (Room.messages
        ⟨"general", "General Chat", [("u1", sampleAlice)],
          [⟨0, "system", "System", "alice joined the room", 1, .user_joined⟩],
          0⟩).length :=
  ((getRoomMessages_spec.2 cmJoined "general"
      ⟨"general", "General Chat", [("u1", sampleAlice)],
        [⟨0, "system", "System", "alice joined the room", 1, .user_joined⟩], 0⟩
      (by decide)).2.2 3 (by decide)).1

/-- C5 (amended): every registry operation given an absent room id returns
its documented result/absent/boolean failure value with the state
unchanged, and an absent user likewise yields a plain failure value — with
the single exception of `getRoomStream`, which throws an Error ("Room {id}
not found") when the room id has no subject. -/
theorem absent_room_total :
    (∀ (cm : ChatManager) (roomId : String),
        mapGet cm.rooms roomId = none →
        cm.getRoom roomId = none ∧
        (∀ (user : User) (t : Nat),
          cm.addUserToRoom roomId user t = (cm, false)) ∧
        (∀ (userId : String) (t : Nat),
          cm.removeUserFromRoom roomId userId t = (cm, false)) ∧
        (∀ (userId content : String) (t : Nat),
          cm.addMessage roomId userId content t = (cm, none)) ∧
        (∀ limit : Option Nat, cm.getRoomMessages roomId limit = []) ∧
        cm.getRoomUsers roomId = []) ∧
    (∀ (cm : ChatManager) (roomId : String) (room : Room) (userId : String)
        (t : Nat),
        mapGet cm.rooms roomId = some room →
        mapGet room.users userId = none →
        cm.removeUserFromRoom roomId userId t = (cm, false)) ∧
    (∀ (cm : ChatManager) (roomId : String),
        cm.roomSubjects.contains roomId = false →
        cm.getRoomStream roomId =
          Except.error ("Room " ++ roomId ++ " not found")) := by
  refine ⟨?_, ?_, ?_⟩
  · intro cm roomId h
    refine ⟨?_, ?_, ?_, ?_, ?_, ?_⟩
    · simp [ChatManager.getRoom, h]
    · intro user t
      simp [ChatManager.addUserToRoom, h]
    · intro userId t
      simp [ChatManager.removeUserFromRoom, h]
    · intro userId content t
      simp [ChatManager.addMessage, h]
    · intro limit
      cases limit <;> simp [ChatManager.getRoomMessages, h]
    · simp [ChatManager.getRoomUsers, h]
  · intro cm roomId room userId t h hu
    simp [ChatManager.removeUserFromRoom, h, hu]
  · intro cm roomId h
    simp only [ChatManager.getRoomStream, h, Bool.false_eq_true, if_false]

/-- C5 counterexample: `getRoomStream` on the freshly constructed manager
with an absent room id throws (modelled as `Except.error`), so not every
operation is exception-free on absent rooms. -/
theorem getRoomStream_throws_counterexample :
    ChatManager.init.getRoomStream "missing" =
      Except.error "Room missing not found" := rfl

/-- C5 witness: the amended theorem applied at the initial manager and a
concrete absent room id. -/
theorem absent_room_total_witness :
    ChatManager.init.getRoom "nowhere" = none :=
  (absent_room_total.1 ChatManager.init "nowhere" (by decide)).1

/-- C10 (confirmed): re-joining a room with an already-member user id
returns true, leaves the member count unchanged (the prior member record
is overwritten), and still appends one additional system join message to
the history and emits one additional ROOM_JOINED event. -/
theorem rejoin_same_id_spec (cm : ChatManager) (roomId : String)
    (u oldU : User) (t : Nat) (room : Room)
    (hR : mapGet cm.rooms roomId = some room) (hid : room.id = roomId)
    (hMem : mapGet room.users u.id = some oldU) :
    (cm.addUserToRoom roomId u t).2 = true ∧
    ∃ room1 : Room,
      (cm.addUserToRoom roomId u t).1.getRoom roomId = some room1 ∧
      room1.users.length = room.users.length ∧
      mapGet room1.users u.id = some u ∧
      room1.messages = room.messages ++
        [⟨cm.nextId, "system", "System", u.username ++ " joined the room", t,
          .user_joined⟩] ∧
      (cm.addUserToRoom roomId u t).1.events =
        cm.events ++ [⟨.room_joined, .user roomId u, t⟩] := by
  refine ⟨by simp [ChatManager.addUserToRoom, hR], ?_⟩
  refine ⟨{ room with
      users := mapSet room.users u.id u,
      messages := room.messages ++
        [⟨cm.nextId, "system", "System", u.username ++ " joined the room", t,
          .user_joined⟩] }, ?_, ?_, ?_, rfl, ?_⟩
  · simp [ChatManager.addUserToRoom, hR, hid, ChatManager.updateRoom,
      ChatManager.emitEvent, ChatManager.getRoom, mapGet_mapSet_self]
  · simpa using length_mapSet_of_mem room.users u.id u oldU hMem
  · exact mapGet_mapSet_self _ _ _
  · simp [ChatManager.addUserToRoom, hR, hid, ChatManager.updateRoom,
      ChatManager.emitEvent]

/-- C10 witness: alice (user id "u1") rejoins "general" with a new record
under the same id. -/
theorem rejoin_same_id_spec_witness :
    (cmJoined.addUserToRoom "general" ⟨"u1", "alicia", 5⟩ 6).2 = true :=
  (rejoin_same_id_spec cmJoined "general" ⟨"u1", "alicia", 5⟩ sampleAlice 6
      ⟨"general", "General Chat", [("u1", sampleAlice)],
        [⟨0, "system", "System", "alice joined the room", 1, .user_joined⟩], 0⟩
      (by decide) rfl (by decide)).1

theorem messageStream_nil (R : String) :
    ChatManager.messageStream [] R = [] := rfl

theorem messageStream_cons_sent (R : String) (m : Message) (t : Nat)
    (es : List ChatEvent) :
    ChatManager.messageStream (⟨.message_sent, .message R m, t⟩ :: es) R =
      m :: ChatManager.messageStream es R := by
  simp [ChatManager.messageStream, EventPayload.roomId, EventPayload.messageOf]

theorem messageStream_cons_other (e : ChatEvent) (es : List ChatEvent)
    (R : String) (h : e.payload.roomId ≠ R) :
    ChatManager.messageStream (e :: es) R = ChatManager.messageStream es R := by
  simp [ChatManager.messageStream, h]

theorem roomsWF_addMessage (cm : ChatManager) (roomId userId content : String)
    (t : Nat) (h : RoomsWF cm) :
    RoomsWF (cm.addMessage roomId userId content t).1 := by
  cases hR : mapGet cm.rooms roomId with
  | none =>
    have hstep : (cm.addMessage roomId userId content t).1 = cm := by
      simp [ChatManager.addMessage, hR]
    rwa [hstep]
  | some room =>
    cases hu : mapGet room.users userId with
    | none =>
      have hstep : (cm.addMessage roomId userId content t).1 = cm := by
        simp [ChatManager.addMessage, hR, hu]
      rwa [hstep]
    | some user =>
      have hnew : (cm.addMessage roomId userId content t).1.rooms =
          mapSet cm.rooms room.id
            { room with messages := room.messages ++
                [⟨cm.nextId, userId, user.username, content, t, .text⟩] } := by
        simp [ChatManager.addMessage, hR, hu, ChatManager.updateRoom,
          ChatManager.emitEvent]
      intro k r hk
      rw [hnew] at hk
      by_cases hkk : k = room.id
      · subst hkk
        rw [mapGet_mapSet_self] at hk
        injection hk with hk
        rw [← hk]
      · rw [mapGet_mapSet_ne _ _ _ _ hkk] at hk
        exact h _ _ hk

/-- Running a sequence of posts appends a tail of events to the log, and
each surviving room's history grows by exactly the per-room message-stream
projection of that tail. -/
theorem runPosts_decomp (posts : List PostCmd) (cm : ChatManager)
    (hwf : RoomsWF cm) :
    ∃ tail : List ChatEvent,
      (runPosts cm posts).events = cm.events ++ tail ∧
      ∀ (R : String) (room₀ : Room), mapGet cm.rooms R = some room₀ →
        ∃ room₁ : Room,
          mapGet (runPosts cm posts).rooms R = some room₁ ∧ room₁.id = R ∧
          room₁.messages =
            room₀.messages ++ ChatManager.messageStream tail R := by
  induction posts generalizing cm with
  | nil =>
    exact ⟨[], by simp [runPosts], fun R room₀ h =>
      ⟨room₀, h, hwf R room₀ h, by simp [messageStream_nil]⟩⟩
  | cons c rest ih =>
    have hrun : runPosts cm (c :: rest) =
        runPosts (cm.addMessage c.roomId c.userId c.content c.time).1 rest := rfl
    cases hR : mapGet cm.rooms c.roomId with
    | none =>
      have hstep : (cm.addMessage c.roomId c.userId c.content c.time).1 = cm := by
        simp [ChatManager.addMessage, hR]
      rw [hrun, hstep]
      exact ih cm hwf
    | some room =>
      cases hu : mapGet room.users c.userId with
      | none =>
        have hstep : (cm.addMessage c.roomId c.userId c.content c.time).1 = cm := by
          simp [ChatManager.addMessage, hR, hu]
        rw [hrun, hstep]
        exact ih cm hwf
      | some user =>
        have hid : room.id = c.roomId := hwf _ _ hR
        have hcm2 : (cm.addMessage c.roomId c.userId c.content c.time).1 =
            { cm with
                nextId := cm.nextId + 1,
                rooms := mapSet cm.rooms c.roomId
                  { room with messages := room.messages ++
                      [⟨cm.nextId, c.userId, user.username, c.content, c.time,
                        .text⟩] },
                events := cm.events ++
                  [⟨.message_sent,
                    .message c.roomId
                      ⟨cm.nextId, c.userId, user.username, c.content, c.time,
                        .text⟩, c.time⟩] } := by
          simp [ChatManager.addMessage, hR, hu, hid, ChatManager.updateRoom,
            ChatManager.emitEvent]
        have hwf2 := roomsWF_addMessage cm c.roomId c.userId c.content c.time hwf
        obtain ⟨tail, hev, hrooms⟩ :=
          ih (cm.addMessage c.roomId c.userId c.content c.time).1 hwf2
        refine ⟨⟨.message_sent,
            .message c.roomId
              ⟨cm.nextId, c.userId, user.username, c.content, c.time, .text⟩,
            c.time⟩ :: tail, ?_, ?_⟩
        · rw [hrun, hev, hcm2]
          simp
        · intro R room₀ h0
          by_cases hRR : R = c.roomId
          · subst hRR
            rw [hR] at h0
            injection h0 with h0
            obtain ⟨room₁, hg, hid1, hmsg⟩ := hrooms c.roomId
              { room with messages := room.messages ++
                  [⟨cm.nextId, c.userId, user.username, c.content, c.time,
                    .text⟩] }
              (by rw [hcm2]; exact mapGet_mapSet_self _ _ _)
            refine ⟨room₁, by rw [hrun]; exact hg, hid1, ?_⟩
            rw [hmsg, messageStream_cons_sent, ← h0]
            simp
          · obtain ⟨room₁, hg, hid1, hmsg⟩ := hrooms R room₀
              (by rw [hcm2]; rw [mapGet_mapSet_ne _ _ _ _ hRR]; exact h0)
            refine ⟨room₁, by rw [hrun]; exact hg, hid1, ?_⟩
            rw [hmsg, messageStream_cons_other]
            exact fun hh => hRR hh.symm

/-- C6 (confirmed): a subscriber to `getMessageStream(R)` created at some
point in the log observes, after any sequence of posts, exactly the
messages appended to room R's history, in the order they were published —
the MESSAGE_SENT events of room R projected to their message payload —
and no message posted to any other room. -/
theorem messageStream_spec (cm : ChatManager) (posts : List PostCmd)
    (R : String) (room₀ : Room) (hwf : RoomsWF cm)
    (hR : mapGet cm.rooms R = some room₀) :
    ∃ room₁ : Room,
      mapGet (runPosts cm posts).rooms R = some room₁ ∧
      room₁.messages = room₀.messages ++
        ChatManager.messageStream
          (List.drop cm.events.length (runPosts cm posts).events) R := by
  obtain ⟨tail, hev, hrooms⟩ := runPosts_decomp posts cm hwf
  obtain ⟨room₁, hg, _, hmsg⟩ := hrooms R room₀ hR
  refine ⟨room₁, hg, ?_⟩
  rw [hev, List.drop_left, hmsg]

/-- Manager with two rooms, alice in "general" and bob in "q". -/
def cmTwoRooms : ChatManager :=
  (((ChatManager.init.addUserToRoom "general" sampleAlice 1).1.createRoom
      "q" "Q Room" 2).1.addUserToRoom "q" sampleBob 3).1

/-- C6 witness: three posts to "general" interleaved with one post to "q",
observed from the "general" subscriber created after the joins. -/
theorem messageStream_spec_witness :
    ∃ room₁ : Room,
      mapGet (runPosts cmTwoRooms
          [⟨"general", "u1", "m1", 4⟩, ⟨"general", "u1", "m2", 5⟩,
           ⟨"q", "u2", "qq", 6⟩, ⟨"general", "u1", "m3", 7⟩]).rooms
        "general" = some room₁ ∧
      room₁.messages =
        (Room.messages
          ⟨"general", "General Chat", [("u1", sampleAlice)],
            [⟨0, "system", "System", "alice joined the room", 1,
              .user_joined⟩], 0⟩) ++
          ChatManager.messageStream
            (List.drop cmTwoRooms.events.length
              (runPosts cmTwoRooms
                [⟨"general", "u1", "m1", 4⟩, ⟨"general", "u1", "m2", 5⟩,
                 ⟨"q", "u2", "qq", 6⟩, ⟨"general", "u1", "m3", 7⟩]).events)
            "general" :=
  messageStream_spec cmTwoRooms
    [⟨"general", "u1", "m1", 4⟩, ⟨"general", "u1", "m2", 5⟩,
     ⟨"q", "u2", "qq", 6⟩, ⟨"general", "u1", "m3", 7⟩]
    "general"
    ⟨"general", "General Chat", [("u1", sampleAlice)],
      [⟨0, "system", "System", "alice joined the room", 1, .user_joined⟩], 0⟩
    (roomsWF_of_pairs _ (by decide)) (by decide)

theorem replaceAll_cons (pat : Char) (rep : List Char) (c : Char)
    (s : List Char) :
    replaceAll pat rep (c :: s) =
      (if c = pat then rep else [c]) ++ replaceAll pat rep s := by
  simp [replaceAll]

theorem replaceAll_append (pat : Char) (rep : List Char) (a b : List Char) :
    replaceAll pat rep (a ++ b) =
      replaceAll pat rep a ++ replaceAll pat rep b := by
  simp [replaceAll]

/-- The two sequential global replaces of the source equal the spec's
single character-wise escaping pass: the first replace introduces no `>`,
so the second acts only on original characters. -/
theorem esc_eq_spec (s : List Char) :
    replaceAll '>' "&gt;".toList (replaceAll '<' "&lt;".toList s) =
      s.flatMap specEscChar := by
  induction s with
  | nil => rfl
  | cons c cs ih =>
    rw [replaceAll_cons, replaceAll_append, ih, List.flatMap_cons]
    congr 1
    by_cases h1 : c = '<'
    · subst h1
      decide
    · by_cases h2 : c = '>'
      · subst h2
        decide
      · simp [specEscChar, h1, h2, replaceAll]

theorem lt_not_mem_specEscChar (c : Char) : '<' ∉ specEscChar c := by
  by_cases h1 : c = '<'
  · subst h1
    decide
  · by_cases h2 : c = '>'
    · subst h2
      decide
    · intro hmem
      simp [specEscChar, h1, h2] at hmem
      exact h1 hmem.symm

theorem gt_not_mem_specEscChar (c : Char) : '>' ∉ specEscChar c := by
  by_cases h1 : c = '<'
  · subst h1
    decide
  · by_cases h2 : c = '>'
    · subst h2
      decide
    · intro hmem
      simp [specEscChar, h1, h2] at hmem
      exact h2 hmem.symm

theorem lt_not_mem_esc (s : List Char) : '<' ∉ s.flatMap specEscChar := by
  induction s with
  | nil => simp
  | cons c cs ih =>
    simp only [List.flatMap_cons, List.mem_append, not_or]
    exact ⟨lt_not_mem_specEscChar c, ih⟩

theorem gt_not_mem_esc (s : List Char) : '>' ∉ s.flatMap specEscChar := by
  induction s with
  | nil => simp
  | cons c cs ih =>
    simp only [List.flatMap_cons, List.mem_append, not_or]
    exact ⟨gt_not_mem_specEscChar c, ih⟩

theorem replaceAll_eq_self (pat : Char) (rep : List Char) (s : List Char)
    (h : pat ∉ s) : replaceAll pat rep s = s := by
  induction s with
  | nil => rfl
  | cons c cs ih =>
    rw [replaceAll_cons]
    have hc : ¬(c = pat) := by
      intro hh
      subst hh
      exact h (List.mem_cons_self _ _)
    rw [if_neg hc]
    simp [ih (fun hm => h (List.mem_cons_of_mem _ hm))]

theorem trimList_subset (s : List Char) : trimList s ⊆ s := by
  intro x hx
  unfold trimList at hx
  rw [List.mem_reverse] at hx
  have hx2 := (List.dropWhile_sublist Char.isWhitespace).subset hx
  rw [List.mem_reverse] at hx2
  exact (List.dropWhile_sublist Char.isWhitespace).subset hx2

theorem dropWhile_dropWhile (p : α → Bool) (l : List α) :
    (l.dropWhile p).dropWhile p = l.dropWhile p := by
  induction l with
  | nil => rfl
  | cons a t ih =>
    by_cases h : p a
    · simp [List.dropWhile_cons, h, ih]
    · simp [List.dropWhile_cons, h]

theorem head?_dropWhile_false (p : α → Bool) (l : List α) (a : α)
    (h : (l.dropWhile p).head? = some a) : p a = false := by
  induction l with
  | nil => simp [List.dropWhile] at h
  | cons c t ih =>
    by_cases hc : p c
    · rw [List.dropWhile_cons_of_pos hc] at h
      exact ih h
    · rw [List.dropWhile_cons_of_neg hc] at h
      simp only [List.head?_cons, Option.some.injEq] at h
      rw [← h]
      simpa using hc

theorem getLast?_dropWhile_reverse_false (p : α → Bool) (m : List α) (a : α)
    (hhead : ∀ b, m.head? = some b → p b = false)
    (h : (m.reverse.dropWhile p).getLast? = some a) : p a = false := by
  cases m with
  | nil => simp at h
  | cons b t =>
    have hb : p b = false := hhead b rfl
    rw [List.reverse_cons, List.dropWhile_append] at h
    by_cases he : (t.reverse.dropWhile p).isEmpty
    · rw [if_pos he] at h
      rw [List.dropWhile_cons_of_neg (by simp [hb])] at h
      simp only [List.getLast?_singleton, Option.some.injEq] at h
      rw [← h]
      exact hb
    · rw [if_neg he, List.getLast?_concat] at h
      injection h with h
      rw [← h]
      exact hb

theorem dropWhile_eq_self_of_head (p : α → Bool) (l : List α)
    (h : ∀ a, l.head? = some a → p a = false) : l.dropWhile p = l := by
  cases l with
  | nil => rfl
  | cons a t =>
    have ha := h a rfl
    simp [List.dropWhile_cons, ha]

theorem trimList_idempotent (s : List Char) :
    trimList (trimList s) = trimList s := by
  have hhead : ∀ b, (s.dropWhile Char.isWhitespace).head? = some b →
      Char.isWhitespace b = false :=
    fun b hb => head?_dropWhile_false _ _ _ hb
  have h1 : (trimList s).dropWhile Char.isWhitespace = trimList s := by
    apply dropWhile_eq_self_of_head
    intro a ha
    unfold trimList at ha
    rw [List.head?_reverse] at ha
    exact getLast?_dropWhile_reverse_false _ _ _ hhead ha
  show ((((trimList s).dropWhile Char.isWhitespace).reverse).dropWhile
      Char.isWhitespace).reverse = trimList s
  rw [h1]
  show ((((((s.dropWhile Char.isWhitespace).reverse).dropWhile
      Char.isWhitespace).reverse).reverse).dropWhile Char.isWhitespace).reverse =
    trimList s
  rw [List.reverse_reverse, dropWhile_dropWhile]
  rfl

/-- C7 (confirmed): the sanitizer returns a copy of the message whose
content is the original content with every < and > replaced by their HTML
entity escapes and leading/trailing whitespace removed (the spec-side
`specSanitize`), leaving all other fields unchanged; the spec's three
examples evaluate as stated. -/
theorem processMessage_spec :
    (∀ m : Message,
        processMessage m = { m with content := specSanitize m.content }) ∧
    (processMessage
        ⟨0, "u", "n", "<script>alert(1)</script>", 0, .text⟩).content =
      "&lt;script&gt;alert(1)&lt;/script&gt;" ∧
    (processMessage ⟨0, "u", "n", "  hi  ", 0, .text⟩).content = "hi" ∧
    (processMessage ⟨0, "u", "n", "   ", 0, .text⟩).content = "" := by
  refine ⟨?_, by decide, by decide, by decide⟩
  intro m
  unfold processMessage specSanitize
  rw [esc_eq_spec]

/-- Idempotence of the sanitizer at the character-list level. -/
theorem sanitizeContent_idempotent (s : List Char) :
    trimList (replaceAll '>' "&gt;".toList (replaceAll '<' "&lt;".toList
      (trimList (replaceAll '>' "&gt;".toList
        (replaceAll '<' "&lt;".toList s))))) =
    trimList (replaceAll '>' "&gt;".toList
      (replaceAll '<' "&lt;".toList s)) := by
  set L := trimList (replaceAll '>' "&gt;".toList
    (replaceAll '<' "&lt;".toList s)) with hL
  have hlt : '<' ∉ L := by
    intro hmem
    have h2 := trimList_subset _ hmem
    rw [esc_eq_spec] at h2
    exact lt_not_mem_esc s h2
  have hgt : '>' ∉ L := by
    intro hmem
    have h2 := trimList_subset _ hmem
    rw [esc_eq_spec] at h2
    exact gt_not_mem_esc s h2
  rw [replaceAll_eq_self '<' _ L hlt, replaceAll_eq_self '>' _ L hgt, hL]
  exact trimList_idempotent _

/-- C8 (confirmed): the sanitizer is idempotent — the escape sequences
contain no < or > themselves and trimming is idempotent, so re-applying
the sanitizer to its own output changes nothing (no double-escaping
occurs, because only < and > are escaped). -/
theorem processMessage_idempotent (m : Message) :
    processMessage (processMessage m) = processMessage m := by
  unfold processMessage
  congr 1
  exact congrArg String.mk (sanitizeContent_idempotent m.content.toList)

/-- C9 (confirmed): each processed activity event sets that user's
timestamp to the event time and is emitted with `lastActivity` equal to
that timestamp and `activeUsers` equal to the number of distinct tracked
user ids (so two distinct users each sending one event make the second
emitted count 2); the separate accessor deletes exactly the entries whose
last activity is strictly older than 5 minutes at call time and returns
the post-prune count, while the transform itself never prunes (every
tracked id survives a transform). -/
theorem activity_tracker_spec :
    (∀ (s : List (String × Nat)) (u : User) (a : String) (t : Nat),
        (uaTransform s u a t).1 = mapSet s u.id t ∧
        (uaTransform s u a t).2 = ⟨u, a, t, (mapSet s u.id t).length⟩) ∧
    (∀ (s : List (String × Nat)) (u : User) (a : String) (t : Nat),
        (s.map Prod.fst).Nodup →
        ((uaTransform s u a t).1.map Prod.fst).Nodup ∧
        (uaTransform s u a t).2.activeUsers =
          ((uaTransform s u a t).1.map Prod.fst).dedup.length) ∧
    (∀ (s : List (String × Nat)) (u : User) (a : String) (t : Nat)
        (k : String),
        (mapGet s k).isSome → (mapGet (uaTransform s u a t).1 k).isSome) ∧
    (∀ (u1 u2 : User) (a1 a2 : String) (t1 t2 : Nat),
        u1.id ≠ u2.id →
        (uaTransform (uaTransform [] u1 a1 t1).1 u2 a2 t2).2.activeUsers = 2) ∧
    (∀ (s : List (String × Nat)) (t : Nat) (p : String × Nat),
        p ∈ (getActiveUsers s t).1 ↔ p ∈ s ∧ ¬(p.2 + 5 * 60 * 1000 < t)) ∧
    (∀ (s : List (String × Nat)) (t : Nat),
        (getActiveUsers s t).2 = (getActiveUsers s t).1.length) := by
  refine ⟨fun s u a t => ⟨rfl, rfl⟩, ?_, ?_, ?_, ?_, fun s t => rfl⟩
  · intro s u a t h
    have hn := keys_nodup_mapSet s u.id t h
    refine ⟨hn, ?_⟩
    show (mapSet s u.id t).length =
      ((mapSet s u.id t).map Prod.fst).dedup.length
    rw [List.dedup_eq_self.mpr (by simpa [uaTransform] using hn)]
    simp
  · intro s u a t k h
    exact mapGet_isSome_mapSet s u.id k t h
  · intro u1 u2 a1 a2 t1 t2 hne
    simp [uaTransform, mapSet, hne]
  · intro s t p
    show p ∈ s.filter _ ↔ _
    rw [List.mem_filter]
    constructor
    · rintro ⟨h1, h2⟩
      refine ⟨h1, ?_⟩
      simp only [Bool.not_eq_true', decide_eq_false_iff_not] at h2
      omega
    · rintro ⟨h1, h2⟩
      refine ⟨h1, ?_⟩
      simp only [Bool.not_eq_true', decide_eq_false_iff_not]
      omega

/-- C9 witness: two distinct users each sending one activity event — the
second emitted active-user count is 2. -/
theorem activity_tracker_spec_witness :
    (uaTransform (uaTransform [] ⟨"u1", "alice", 0⟩ "joined" 10).1
        ⟨"u2", "bob", 0⟩ "joined" 20).2.activeUsers = 2 :=
  activity_tracker_spec.2.2.2.1 ⟨"u1", "alice", 0⟩ ⟨"u2", "bob", 0⟩
    "joined" "joined" 10 20 (by decide)

end HeyChatting
